import Mathlib

/-!
# Yet Another Latency Measuring Device: the controller loop

A shallow embedding of `src/yalmd/src/main.cpp` (the firmware of the measuring
device) and the properties its specification states about it.

The firmware is a single-threaded polling loop over global variables.  It is
embedded as explicit state passing over a `Machine`, which holds

* the firmware's global variables (`blackValue`, `whiteValue`, `threshold`,
  `lastState`, `state`, `time`);
* the environment, as finite scripts of the values the hardware will return:
  the levels of the on/off switch, the samples of the photo resistor (each
  with the simulated time that passes until the sample is delivered) and the
  raw outputs of the pseudorandom generator, together with a simulated
  microsecond clock that sensor samples and `delay` advance, and in `mainLoop`
  the time that passes between two calls of `loop()`;
* the log of every hardware action the firmware performed, each stamped with
  the clock value at which it completed.

A routine that needs an input the script no longer holds is `stuck`: the
firmware blocks there, and the machine reached so far is kept.  Loops are run
with a fuel of one more than the number of sensor samples left; every
iteration consumes at least one sample, so the fuel never runs out first.

Machine integers: `int` is 16 bits wide on the AVR target (`int16`),
`unsigned long` is 32 bits wide (`micros`, `ulongSub`).  The analog/digital
converter delivers 10-bit samples, `Fin 1024`.
-/

namespace Yalmd

/-! ## Constants and machine integers -/

/-- Line 21: `#define OFF 0`, as a `bool`. -/
def OFF : Bool := false

/-- Line 22: `#define ON 1`, as a `bool`. -/
def ON : Bool := true

/-- Arduino logic level `LOW`. -/
def LOW : Bool := false

/-- Arduino logic level `HIGH`. -/
def HIGH : Bool := true

/-- Lines 25-29: the pins the firmware uses. -/
inductive Pin where
  | PIN_SENSOR
  | PIN_CLICK
  | PIN_STATE
  | PIN_LED_CLICK
  | PIN_LED_THRESH
  deriving DecidableEq, Repr

/-- Value of a 16-bit two's-complement `int` holding the mathematical integer `x`. -/
def int16 (x : Int) : Int := (x + 32768) % 65536 - 32768

/-- Number of values of a 32-bit `unsigned long`. -/
def ULONG_RANGE : Nat := 4294967296

/-- Subtraction of two `unsigned long` values, `a - b` modulo `2^32`. -/
def ulongSub (a b : Nat) : Nat := (a % ULONG_RANGE + ULONG_RANGE - b % ULONG_RANGE) % ULONG_RANGE

/-- Line 64: `blackValue - ((blackValue - whiteValue) / 2)` in 16-bit `int`
arithmetic; `/` is C++ division, which truncates toward zero. -/
def thresholdOf (blackValue whiteValue : Int) : Int :=
  int16 (blackValue - int16 ((int16 (blackValue - whiteValue)).tdiv 2))

/-- Modelled from the spec: `random(howsmall, howbig)` belongs to the Arduino core
library, which is not part of the repository sources.  The specification asks
for a duration drawn from the range `howsmall .. howbig`, exclusive of the upper
bound, out of any pseudorandom source; `r` is the raw output of that source (a
non-negative `long`), reduced into the range the way the Arduino core does it:
`howsmall` when the range is empty, else `r % (howbig - howsmall) + howsmall`. -/
def random (howsmall howbig : Int) (r : Nat) : Int :=
  if howsmall ≥ howbig then howsmall else (r : Int) % (howbig - howsmall) + howsmall

/-! ## The machine -/

/-- One scripted sample of the photo resistor: `elapsed` microseconds pass
before the converter delivers `value`. -/
structure Sample where
  elapsed : Nat
  value : Fin 1024
  deriving DecidableEq, Repr

/-- Hardware actions of the firmware, as they appear in the log. -/
inductive Event where
  | analogRead (pin : Pin) (value : Int)
  | digitalRead (pin : Pin) (level : Bool)
  | digitalWrite (pin : Pin) (level : Bool)
  | delay (ms : Nat)
  | micros (value : Nat)
  | print (text : String)
  | println
  deriving DecidableEq, Repr

/-- The firmware's globals (lines 31-39), the scripted environment, the simulated
clock in microseconds since power-up, and the log of stamped hardware actions. -/
structure Machine where
  blackValue : Int
  whiteValue : Int
  threshold : Int
  lastState : Bool
  state : Bool
  time : Nat
  clock : Nat
  switch : List Bool
  sensor : List Sample
  rng : List Nat
  log : List (Nat × Event)
  deriving DecidableEq, Repr

/-- State at power-up: the initialisers of lines 31-39 (`time` is zero-initialised),
clock at zero, nothing logged, and the given scripts. -/
def boot (switch : List Bool) (sensor : List Sample) (rng : List Nat) : Machine :=
  { blackValue := -1, whiteValue := -1, threshold := -1, lastState := OFF, state := OFF,
    time := 0, clock := 0, switch := switch, sensor := sensor, rng := rng, log := [] }

/-- Outcome of running a routine: it returned `a` in machine `m`, or it is blocked
in machine `m` on an input that the script does not provide. -/
inductive Run (α : Type) where
  | done (a : α) (m : Machine)
  | stuck (m : Machine)
  deriving DecidableEq, Repr

/-- Machine in which a run ended, returned or blocked. -/
def Run.machine {α : Type} : Run α → Machine
  | .done _ m => m
  | .stuck m => m

/-- Returned value of a run, if it returned. -/
def Run.result {α : Type} : Run α → Option α
  | .done a _ => some a
  | .stuck _ => none

/-- Sequencing: continue with `k` if the run returned, stay blocked otherwise. -/
def Run.andThen {α β : Type} (r : Run α) (k : α → Machine → Run β) : Run β :=
  match r with
  | .done a m => k a m
  | .stuck m => .stuck m

/-! ## Hardware primitives -/

/-- Append an action to the log, stamped with the current clock. -/
def record (e : Event) (m : Machine) : Machine :=
  { m with log := m.log ++ [(m.clock, e)] }

/-- Arduino `digitalWrite(pin, level)`. -/
def digitalWrite (pin : Pin) (level : Bool) (m : Machine) : Machine :=
  record (.digitalWrite pin level) m

/-- Arduino `delay(ms)`: the clock advances by `ms` milliseconds. -/
def delay (ms : Nat) (m : Machine) : Machine :=
  record (.delay ms) { m with clock := m.clock + 1000 * ms }

/-- Arduino `micros()`: the clock as a 32-bit `unsigned long`. -/
def micros (m : Machine) : Nat × Machine :=
  (m.clock % ULONG_RANGE, record (.micros (m.clock % ULONG_RANGE)) m)

/-- Arduino `analogRead(pin)`, which the firmware calls on `PIN_SENSOR` only: the
next scripted sample of the photo resistor, delivered after its elapsed time. -/
def analogRead (pin : Pin) (m : Machine) : Option (Int × Machine) :=
  match m.sensor with
  | [] => none
  | s :: rest =>
    some ((s.value.val : Int),
      record (.analogRead pin (s.value.val : Int))
        { m with clock := m.clock + s.elapsed, sensor := rest })

/-- Arduino `digitalRead(pin)`, which the firmware calls on `PIN_STATE` only: the
next scripted level of the on/off switch. -/
def digitalRead (pin : Pin) (m : Machine) : Option (Bool × Machine) :=
  match m.switch with
  | [] => none
  | level :: rest =>
    some (level, record (.digitalRead pin level) { m with switch := rest })

/-- Next raw output of the pseudorandom generator. -/
def rawRandom (m : Machine) : Option (Nat × Machine) :=
  match m.rng with
  | [] => none
  | r :: rest => some (r, { m with rng := rest })

/-- Arduino `Serial.print(text)`. -/
def serialPrint (text : String) (m : Machine) : Machine :=
  record (.print text) m

/-- Arduino `Serial.println()`: ends the current line. -/
def serialPrintln (m : Machine) : Machine :=
  record .println m

/-! ## The firmware -/

/-- Lines 45-89, `int calibrate()`. -/
def calibrate (m : Machine) : Run Int :=
  match analogRead .PIN_SENSOR m with
  | none => .stuck m
  | some (b, m) =>
    let m := { m with blackValue := b }
    let m := digitalWrite .PIN_CLICK HIGH m
    let m := digitalWrite .PIN_LED_CLICK HIGH m
    let m := delay 500 m
    match analogRead .PIN_SENSOR m with
    | none => .stuck m
    | some (w, m) =>
      let m := { m with whiteValue := w }
      let m := digitalWrite .PIN_CLICK LOW m
      let m := digitalWrite .PIN_LED_CLICK LOW m
      let m := delay 500 m
      let m := { m with threshold := thresholdOf m.blackValue m.whiteValue }
      let m := serialPrint "# black: " m
      let m := serialPrint (toString m.blackValue) m
      let m := serialPrintln m
      let m := serialPrint "# white: " m
      let m := serialPrint (toString m.whiteValue) m
      let m := serialPrintln m
      let m := serialPrint "# threshold: " m
      let m := serialPrint (toString m.threshold) m
      let m := serialPrintln m
      if m.threshold < 100 then
        let m := serialPrint "# error: low threshold" m
        let m := serialPrintln m
        .done 0 m
      else
        .done 1 m

/-- Lines 91-104, `void setup()`.  Pin modes, the serial speed and the seed of the
generator (whose outputs are the scripted `rng`) have no counterpart in the
machine; what remains is `delay(1000)`. -/
def setup (m : Machine) : Machine :=
  delay 1000 m

/-- Lines 121-124, `while(!calibrate()) delay(1000);`. -/
def calibrateUntilOk : Nat → Machine → Run Unit
  | 0, m => .stuck m
  | fuel + 1, m =>
    (calibrate m).andThen fun r m =>
      if r = 0 then calibrateUntilOk fuel (delay 1000 m) else .done () m

/-- Lines 117-127: calibration when the device was off before this tick. -/
def activate (m : Machine) : Run Unit :=
  if m.lastState = OFF then
    (calibrateUntilOk (m.sensor.length + 1) m).andThen fun _ m =>
      .done () { m with lastState := ON }
  else
    .done () m

/-- Line 149, `while(analogRead(PIN_SENSOR) < threshold) delay(500);`. -/
def awaitDark : Nat → Machine → Run Unit
  | 0, m => .stuck m
  | fuel + 1, m =>
    match analogRead .PIN_SENSOR m with
    | none => .stuck m
    | some (v, m) =>
      if v < m.threshold then awaitDark fuel (delay 500 m) else .done () m

/-- Lines 139-152, the body of the `if` inside the poll loop: log the latency,
release the button and wait until the display is dark again. -/
def onCrossing (m : Machine) : Run Unit :=
  let (now, m) := micros m
  let m := serialPrint (toString (ulongSub now m.time)) m
  let m := serialPrintln m
  let m := digitalWrite .PIN_LED_THRESH HIGH m
  let m := delay 500 m
  let m := digitalWrite .PIN_CLICK LOW m
  let m := digitalWrite .PIN_LED_CLICK LOW m
  (awaitDark (m.sensor.length + 1) m).andThen fun _ m =>
    .done () (digitalWrite .PIN_LED_THRESH LOW m)

/-- Lines 134-154, the `while(1)` poll loop, left through `break` after `onCrossing`. -/
def awaitBright : Nat → Machine → Run Unit
  | 0, m => .stuck m
  | fuel + 1, m =>
    match analogRead .PIN_SENSOR m with
    | none => .stuck m
    | some (v, m) =>
      if v < m.threshold then onCrossing m else awaitBright fuel m

/-- Lines 129-154: one trial, from asserting the trigger to the confirmed reset. -/
def trial (m : Machine) : Run Unit :=
  let m := digitalWrite .PIN_CLICK HIGH m
  let m := digitalWrite .PIN_LED_CLICK HIGH m
  let (now, m) := micros m
  let m := { m with time := now }
  awaitBright (m.sensor.length + 1) m

/-- Lines 156-157, `delay(random(100, 1000));`. -/
def pace (m : Machine) : Run Unit :=
  match rawRandom m with
  | none => .stuck m
  | some (r, m) => .done () (delay (random 100 1000 r).toNat m)

/-- Lines 106-159, `void loop()`: one tick. -/
def loop (m : Machine) : Run Unit :=
  match digitalRead .PIN_STATE m with
  | none => .stuck m
  | some (level, m) =>
    if level = HIGH then
      let m := { m with lastState := OFF }
      .done () (delay 100 m)
    else
      (activate m).andThen fun _ m =>
        (trial m).andThen fun _ m =>
          pace m

/-- Run `n` successive ticks of `loop()`; a blocked tick blocks the run. -/
def ticks : Nat → Machine → Run Unit
  | 0, m => .done () m
  | n + 1, m => (loop m).andThen fun _ m => ticks n m

/-- Log entries a run added to the log of the machine it started from. -/
def emitted {α : Type} (m : Machine) (r : Run α) : List (Nat × Event) :=
  r.machine.log.drop m.log.length

/-- Whether a logged action writes to the serial port. -/
def isSerial : Nat × Event → Bool
  | (_, .print _) => true
  | (_, .println) => true
  | _ => false

/-- Completed lines of serial text in a log: `print` extends the line being
written (`cur`), `println` completes it. -/
def linesFrom : String → List (Nat × Event) → List String
  | _, [] => []
  | cur, (_, .print text) :: es => linesFrom (cur ++ text) es
  | cur, (_, .println) :: es => cur :: linesFrom "" es
  | cur, _ :: es => linesFrom cur es

/-- Completed lines of serial text in a log that starts at a line start. -/
def serialLines (es : List (Nat × Event)) : List String :=
  linesFrom "" es

/-- Comment line of the transcript: it begins with the marker `#`. -/
def isComment (line : String) : Bool :=
  line.data.head? = some '#'

/-- Data line of the transcript: a non-empty run of decimal digits and nothing else. -/
def isData (line : String) : Bool :=
  !line.data.isEmpty && line.data.all Char.isDigit

/-- Data-model invariant of a calibration reading: `t` lies strictly between
`a` and `b`, whichever of the two is the larger. -/
def strictlyBetween (t a b : Int) : Prop :=
  (a < t ∧ t < b) ∨ (b < t ∧ t < a)

instance (t a b : Int) : Decidable (strictlyBetween t a b) := by
  unfold strictlyBetween; infer_instance

/-- Total simulated time of a run of samples. -/
def elapsedOf : List Sample → Nat
  | [] => 0
  | s :: ss => s.elapsed + elapsedOf ss

/-- Log entries of consecutive polls of the samples `ss`, the first one issued at clock `c`. -/
def pollLog : Nat → List Sample → List (Nat × Event)
  | _, [] => []
  | c, s :: ss =>
    (c + s.elapsed, .analogRead .PIN_SENSOR (s.value.val : Int)) :: pollLog (c + s.elapsed) ss

/-- Log entries of the wait of line 149 over samples that all read below the
threshold, starting at clock `c`. -/
def darkWaitLog : Nat → List Sample → List (Nat × Event)
  | _, [] => []
  | c, s :: ss =>
    (c + s.elapsed, .analogRead .PIN_SENSOR (s.value.val : Int))
      :: (c + s.elapsed + 500000, .delay 500)
      :: darkWaitLog (c + s.elapsed + 500000) ss

/-- Log entries of one call of `calibrate()` issued at clock `c` that samples `b`
and then `w`. -/
def calibrateLog (c : Nat) (b w : Sample) : List (Nat × Event) :=
  let t1 := c + b.elapsed
  let t2 := t1 + 500000 + w.elapsed
  let t3 := t2 + 500000
  [ (t1, .analogRead .PIN_SENSOR (b.value.val : Int)),
    (t1, .digitalWrite .PIN_CLICK true),
    (t1, .digitalWrite .PIN_LED_CLICK true),
    (t1 + 500000, .delay 500),
    (t2, .analogRead .PIN_SENSOR (w.value.val : Int)),
    (t2, .digitalWrite .PIN_CLICK false),
    (t2, .digitalWrite .PIN_LED_CLICK false),
    (t3, .delay 500),
    (t3, .print "# black: "),
    (t3, .print (toString (b.value.val : Int))),
    (t3, .println),
    (t3, .print "# white: "),
    (t3, .print (toString (w.value.val : Int))),
    (t3, .println),
    (t3, .print "# threshold: "),
    (t3, .print (toString (thresholdOf b.value.val w.value.val))),
    (t3, .println) ]
  ++ (if thresholdOf b.value.val w.value.val < 100 then
        [(t3, .print "# error: low threshold"), (t3, .println)]
      else [])

/-- Machine in which a call of `calibrate()` that samples `b` and then `w`
returns, the script continuing with `rest`. -/
def calibrated (m : Machine) (b w : Sample) (rest : List Sample) : Machine :=
  { m with
    blackValue := (b.value.val : Int)
    whiteValue := (w.value.val : Int)
    threshold := thresholdOf b.value.val w.value.val
    clock := m.clock + b.elapsed + 500000 + w.elapsed + 500000
    sensor := rest
    log := m.log ++ calibrateLog m.clock b w }

/-- Samples consumed by failed calibration attempts, each attempt given as its
pair of samples (dark display, bright display). -/
def retrySamples : List (Sample × Sample) → List Sample
  | [] => []
  | (b, w) :: ps => b :: w :: retrySamples ps

/-- Simulated time taken by failed calibration attempts, each followed by the
`delay(1000)` of line 123. -/
def retryTime : List (Sample × Sample) → Nat
  | [] => 0
  | (b, w) :: ps => b.elapsed + 500000 + w.elapsed + 500000 + 1000000 + retryTime ps

/-- Log entries of failed calibration attempts starting at clock `c`, each followed
by the `delay(1000)` of line 123. -/
def retryLog : Nat → List (Sample × Sample) → List (Nat × Event)
  | _, [] => []
  | c, (b, w) :: ps =>
    calibrateLog c b w
      ++ (c + b.elapsed + 500000 + w.elapsed + 500000 + 1000000, .delay 1000)
      :: retryLog (c + b.elapsed + 500000 + w.elapsed + 500000 + 1000000) ps

/-- Machine in which the trial of a tick starts when the device was off before the
tick, the switch reads `LOW`, the attempts `fails` fail and the attempt on
`b`, `w` succeeds: the tick has read the switch, run those calibrations (the
last one sets `blackValue`, `whiteValue` and `threshold`) and set `lastState`. -/
def activated (m : Machine) (sw : List Bool) (fails : List (Sample × Sample)) (b w : Sample)
    (rest : List Sample) : Machine :=
  { calibrated
      { m with
        switch := sw
        clock := m.clock + retryTime fails
        log := m.log ++ (m.clock, .digitalRead .PIN_STATE false) :: retryLog m.clock fails }
      b w rest with
    lastState := ON }

/-- The calibration, the activation state and the pending levels of the on/off
switch are the same in both machines. -/
def SameSettings (m m' : Machine) : Prop :=
  m'.blackValue = m.blackValue ∧ m'.whiteValue = m.whiteValue
    ∧ m'.threshold = m.threshold ∧ m'.lastState = m.lastState ∧ m'.switch = m.switch

/-! ## Concrete machines -/

/-- A display whose brightness does not change on a click: both calibration
samples read 512. -/
def flatDisplay : Machine :=
  boot [] [⟨0, 512⟩, ⟨0, 512⟩] []

/-- Calibration samples of the specification's first example, 500 and 450. -/
def goodDisplay : Machine :=
  boot [] [⟨3, 500⟩, ⟨4, 450⟩] []

/-- Calibration samples of the specification's second example, 80 and 60. -/
def dimDisplay : Machine :=
  boot [] [⟨3, 80⟩, ⟨4, 60⟩] []

/-- An enabled, calibrated device (threshold 475) at clock 4294967000, shortly
before the 32-bit microsecond counter wraps: three polls stay dark, the
fourth reads bright after 1000 microseconds in total. -/
def wrappingTrial : Machine :=
  { blackValue := 500, whiteValue := 450, threshold := 475, lastState := ON, state := OFF,
    time := 0, clock := 4294967000, switch := [LOW],
    sensor := [⟨250, 500⟩, ⟨250, 480⟩, ⟨250, 475⟩, ⟨250, 470⟩, ⟨100, 500⟩], rng := [7],
    log := [] }

/-- A disabled device that had been calibrated before (threshold 475). -/
def switchedOff : Machine :=
  { blackValue := 500, whiteValue := 450, threshold := 475, lastState := ON, state := OFF,
    time := 0, clock := 0, switch := [HIGH, LOW], sensor := [⟨100, 470⟩], rng := [7],
    log := [] }

/-- A device at power-up whose switch is on for three ticks: the first calibration
attempt fails (80, 60), the second succeeds (500, 450), and the display then
answers each click. -/
def coldStart : Machine :=
  boot [LOW, LOW, LOW]
    [⟨3, 80⟩, ⟨4, 60⟩, ⟨3, 500⟩, ⟨4, 450⟩, ⟨100, 500⟩, ⟨100, 470⟩, ⟨5, 480⟩,
     ⟨90, 470⟩, ⟨5, 480⟩] [12, 34]

end Yalmd

namespace Yalmd

/-! ## Arithmetic of the threshold -/

/-- Truncating division by two, by the sign of the dividend. -/
theorem tdiv_two (a : Int) : a.tdiv 2 = if 0 ≤ a then a / 2 else -((-a) / 2) := by
  split
  · exact Int.tdiv_eq_ediv ‹_› (by decide)
  · have h : a = -(-a) := by omega
    rw [h, Int.neg_tdiv, Int.tdiv_eq_ediv (by omega) (by decide)]
    simp

/-- On 10-bit samples no step of line 64 leaves the range of a 16-bit `int`. -/
theorem thresholdOf_eq (b w : Fin 1024) :
    thresholdOf b.val w.val = (b.val : Int) - ((b.val : Int) - w.val).tdiv 2 := by
  unfold thresholdOf int16
  simp only [tdiv_two]
  split <;> omega

/-- The threshold of two 10-bit samples is again in the range of a sample. -/
theorem thresholdOf_range (b w : Fin 1024) :
    0 ≤ thresholdOf b.val w.val ∧ thresholdOf b.val w.val ≤ 1023 := by
  rw [thresholdOf_eq, tdiv_two]
  split <;> omega

/-! ## One call of `calibrate()` -/

/-- With two samples left in the script, `calibrate()` returns: `0` when the
threshold is below 100 and `1` otherwise, in the machine `calibrated`. -/
theorem calibrate_eq (m : Machine) (b w : Sample) (rest : List Sample)
    (h : m.sensor = b :: w :: rest) :
    calibrate m
      = .done (if thresholdOf b.value.val w.value.val < 100 then 0 else 1)
          (calibrated m b w rest) := by
  unfold calibrate analogRead
  rw [h]
  by_cases ht : thresholdOf b.value.val w.value.val < 100
  · simp [record, digitalWrite, delay, serialPrint, serialPrintln, calibrated, calibrateLog,
      HIGH, LOW, ht, Nat.add_assoc]
  · simp [record, digitalWrite, delay, serialPrint, serialPrintln, calibrated, calibrateLog,
      HIGH, LOW, ht, Nat.add_assoc]

/-! ## Fuel

The loops are run with a fuel of one more than the number of samples left in
the script.  Any larger fuel gives the same run: the loops never end for
lack of fuel, only by returning or by blocking on an empty script. -/

/-- The wait of line 149 does not depend on the fuel, once it exceeds the number
of samples left. -/
theorem awaitDark_fuel (fuel : Nat) : ∀ (m : Machine) (fuel' : Nat),
    m.sensor.length < fuel → m.sensor.length < fuel' →
    awaitDark fuel m = awaitDark fuel' m := by
  induction fuel with
  | zero => intro m fuel' h; exact absurd h (Nat.not_lt_zero _)
  | succ fuel ih =>
    intro m fuel' h h'
    obtain ⟨fuel', rfl⟩ : ∃ k, fuel' = k + 1 := ⟨fuel' - 1, by omega⟩
    cases hs : m.sensor with
    | nil => simp [awaitDark, analogRead, hs]
    | cons s rest =>
      rw [hs] at h h'
      simp only [List.length_cons] at h h'
      simp only [awaitDark, analogRead, hs]
      split
      · exact ih _ _ (by simp [delay, record]; omega) (by simp [delay, record]; omega)
      · rfl

/-- The poll loop of a trial does not depend on the fuel, once it exceeds the
number of samples left. -/
theorem awaitBright_fuel (fuel : Nat) : ∀ (m : Machine) (fuel' : Nat),
    m.sensor.length < fuel → m.sensor.length < fuel' →
    awaitBright fuel m = awaitBright fuel' m := by
  induction fuel with
  | zero => intro m fuel' h; exact absurd h (Nat.not_lt_zero _)
  | succ fuel ih =>
    intro m fuel' h h'
    obtain ⟨fuel', rfl⟩ : ∃ k, fuel' = k + 1 := ⟨fuel' - 1, by omega⟩
    cases hs : m.sensor with
    | nil => simp [awaitBright, analogRead, hs]
    | cons s rest =>
      rw [hs] at h h'
      simp only [List.length_cons] at h h'
      simp only [awaitBright, analogRead, hs]
      split
      · rfl
      · exact ih _ _ (by simp [record]; omega) (by simp [record]; omega)

/-- The retry loop of the calibration does not depend on the fuel, once it
exceeds the number of samples left. -/
theorem calibrateUntilOk_fuel (fuel : Nat) : ∀ (m : Machine) (fuel' : Nat),
    m.sensor.length < fuel → m.sensor.length < fuel' →
    calibrateUntilOk fuel m = calibrateUntilOk fuel' m := by
  induction fuel with
  | zero => intro m fuel' h; exact absurd h (Nat.not_lt_zero _)
  | succ fuel ih =>
    intro m fuel' h h'
    obtain ⟨fuel', rfl⟩ : ∃ k, fuel' = k + 1 := ⟨fuel' - 1, by omega⟩
    cases hs : m.sensor with
    | nil => simp [calibrateUntilOk, calibrate, analogRead, hs, Run.andThen]
    | cons b rest =>
      cases rest with
      | nil =>
        simp [calibrateUntilOk, calibrate, analogRead, hs, Run.andThen, record, digitalWrite,
          delay]
      | cons w rest =>
        rw [hs] at h h'
        simp only [List.length_cons] at h h'
        simp only [calibrateUntilOk, calibrate_eq m b w rest hs, Run.andThen]
        split
        · exact ih _ _ (by simp [delay, record, calibrated]; omega)
            (by simp [delay, record, calibrated]; omega)
        · rfl

/-- C1 (as stated), refuted: readings 501 and 500 satisfy `blackLevel > whiteLevel`,
yet the threshold of line 64 is 501, which is not below `blackLevel`. -/
theorem C1_counterexample :
    ¬ (((500 : Fin 1024).val : Int) < (501 : Fin 1024).val →
        ((500 : Fin 1024).val : Int) < thresholdOf (501 : Fin 1024).val (500 : Fin 1024).val
          ∧ thresholdOf (501 : Fin 1024).val (500 : Fin 1024).val < (501 : Fin 1024).val) := by
  decide

/-- C1 (amended): for 10-bit readings with `blackLevel > whiteLevel`, the threshold
`blackLevel - (blackLevel - whiteLevel)/2` of line 64 satisfies
`whiteLevel < threshold ≤ blackLevel`; it is below `blackLevel` whenever the two
readings differ by at least 2, and equals `blackLevel` when they differ by 1. -/
theorem C1_threshold_interval (blackLevel whiteLevel : Fin 1024)
    (h : (whiteLevel.val : Int) < blackLevel.val) :
    thresholdOf blackLevel.val whiteLevel.val
        = (blackLevel.val : Int) - ((blackLevel.val : Int) - whiteLevel.val).tdiv 2
      ∧ (whiteLevel.val : Int) < thresholdOf blackLevel.val whiteLevel.val
      ∧ thresholdOf blackLevel.val whiteLevel.val ≤ blackLevel.val
      ∧ ((whiteLevel.val : Int) + 2 ≤ blackLevel.val →
          thresholdOf blackLevel.val whiteLevel.val < blackLevel.val)
      ∧ ((blackLevel.val : Int) = whiteLevel.val + 1 →
          thresholdOf blackLevel.val whiteLevel.val = blackLevel.val) := by
  refine ⟨thresholdOf_eq _ _, ?_⟩
  rw [thresholdOf_eq, tdiv_two]
  split <;> omega

/-- Witness of `C1_threshold_interval` at readings 500 and 450. -/
theorem C1_threshold_interval_witness :
    thresholdOf (500 : Fin 1024).val (450 : Fin 1024).val
        = ((500 : Fin 1024).val : Int)
            - (((500 : Fin 1024).val : Int) - (450 : Fin 1024).val).tdiv 2
      ∧ ((450 : Fin 1024).val : Int) < thresholdOf (500 : Fin 1024).val (450 : Fin 1024).val
      ∧ thresholdOf (500 : Fin 1024).val (450 : Fin 1024).val ≤ (500 : Fin 1024).val
      ∧ (((450 : Fin 1024).val : Int) + 2 ≤ (500 : Fin 1024).val →
          thresholdOf (500 : Fin 1024).val (450 : Fin 1024).val < (500 : Fin 1024).val)
      ∧ (((500 : Fin 1024).val : Int) = (450 : Fin 1024).val + 1 →
          thresholdOf (500 : Fin 1024).val (450 : Fin 1024).val = (500 : Fin 1024).val) :=
  C1_threshold_interval 500 450 (by decide)

/-- C10 (as stated), refuted: readings 450 and 501 have an odd difference, yet the
threshold of line 64 is 475, which is the C++ quotient `(450 + 501)/2`; so
the threshold equals `(blackLevel + whiteLevel)/2` also outside the even case. -/
theorem C10_counterexample :
    ¬ (thresholdOf (450 : Fin 1024).val (501 : Fin 1024).val
          = (((450 : Fin 1024).val : Int) + (501 : Fin 1024).val).tdiv 2
        ↔ (((450 : Fin 1024).val : Int) - (501 : Fin 1024).val) % 2 = 0) := by
  decide

/-- C10 (amended): the threshold of line 64 is the integer midpoint of the two
readings, biased toward `blackLevel`.  For 10-bit readings in either order
the 16-bit arithmetic does not overflow.  With the truncating C++ quotient,
the threshold equals `(blackLevel + whiteLevel)/2` exactly when the difference
is even or `blackLevel < whiteLevel`; for an odd difference with
`blackLevel > whiteLevel` it is `(blackLevel + whiteLevel)/2 + 1`.  It is the
exact midpoint exactly when the difference is even, and when the difference
is odd it is one of the two integers next to the exact midpoint, the one
closer to `blackLevel`. -/
theorem C10_threshold_midpoint (blackLevel whiteLevel : Fin 1024) :
    thresholdOf blackLevel.val whiteLevel.val
        = (blackLevel.val : Int) - ((blackLevel.val : Int) - whiteLevel.val).tdiv 2
      ∧ (thresholdOf blackLevel.val whiteLevel.val
            = ((blackLevel.val : Int) + whiteLevel.val).tdiv 2
          ↔ (((blackLevel.val : Int) - whiteLevel.val) % 2 = 0
              ∨ (blackLevel.val : Int) < whiteLevel.val))
      ∧ (((blackLevel.val : Int) - whiteLevel.val) % 2 ≠ 0 →
          (whiteLevel.val : Int) < blackLevel.val →
          thresholdOf blackLevel.val whiteLevel.val
            = ((blackLevel.val : Int) + whiteLevel.val).tdiv 2 + 1)
      ∧ (2 * thresholdOf blackLevel.val whiteLevel.val = (blackLevel.val : Int) + whiteLevel.val
          ↔ ((blackLevel.val : Int) - whiteLevel.val) % 2 = 0)
      ∧ (((blackLevel.val : Int) - whiteLevel.val) % 2 ≠ 0 →
          (2 * thresholdOf blackLevel.val whiteLevel.val
              = (blackLevel.val : Int) + whiteLevel.val + 1
            ∨ 2 * thresholdOf blackLevel.val whiteLevel.val
              = (blackLevel.val : Int) + whiteLevel.val - 1)
          ∧ |thresholdOf blackLevel.val whiteLevel.val - blackLevel.val| + 1
              = |thresholdOf blackLevel.val whiteLevel.val - whiteLevel.val|) := by
  have hsum : ((blackLevel.val : Int) + whiteLevel.val).tdiv 2
      = ((blackLevel.val : Int) + whiteLevel.val) / 2 :=
    Int.tdiv_eq_ediv (by omega) (by decide)
  refine ⟨thresholdOf_eq _ _, ?_⟩
  rw [thresholdOf_eq, hsum]
  simp only [tdiv_two]
  refine ⟨?_, ?_, ?_, ?_⟩
  · split <;> omega
  · intro h1 h2; split <;> omega
  · split <;> omega
  · intro h
    refine ⟨by split <;> omega, ?_⟩
    rcases abs_cases ((blackLevel.val : Int)
        - (if 0 ≤ (blackLevel.val : Int) - whiteLevel.val
            then ((blackLevel.val : Int) - whiteLevel.val) / 2
            else -(-((blackLevel.val : Int) - whiteLevel.val) / 2)) - blackLevel.val)
      with ⟨h1, h2⟩ | ⟨h1, h2⟩ <;>
    rcases abs_cases ((blackLevel.val : Int)
        - (if 0 ≤ (blackLevel.val : Int) - whiteLevel.val
            then ((blackLevel.val : Int) - whiteLevel.val) / 2
            else -(-((blackLevel.val : Int) - whiteLevel.val) / 2)) - whiteLevel.val)
      with ⟨h3, h4⟩ | ⟨h3, h4⟩ <;>
    rw [h1, h3] <;> split at h2 <;> split at h4 <;> split <;> omega

/-- Witness of `C10_threshold_midpoint`: an odd difference with `blackLevel > whiteLevel`
(501, 450: threshold 476, one more than the quotient 475 and next to
`blackLevel`), the same readings in the other order (450, 501: threshold 475,
the quotient), and an even difference (500, 450: threshold 475). -/
theorem C10_threshold_midpoint_witness :
    (thresholdOf (501 : Fin 1024).val (450 : Fin 1024).val
        = (((501 : Fin 1024).val : Int) + (450 : Fin 1024).val).tdiv 2 + 1)
      ∧ (|thresholdOf (501 : Fin 1024).val (450 : Fin 1024).val - (501 : Fin 1024).val| + 1
          = |thresholdOf (501 : Fin 1024).val (450 : Fin 1024).val - (450 : Fin 1024).val|)
      ∧ (thresholdOf (450 : Fin 1024).val (501 : Fin 1024).val
          = (((450 : Fin 1024).val : Int) + (501 : Fin 1024).val).tdiv 2)
      ∧ (|thresholdOf (450 : Fin 1024).val (501 : Fin 1024).val - (450 : Fin 1024).val| + 1
          = |thresholdOf (450 : Fin 1024).val (501 : Fin 1024).val - (501 : Fin 1024).val|)
      ∧ (thresholdOf (500 : Fin 1024).val (450 : Fin 1024).val
          = (((500 : Fin 1024).val : Int) + (450 : Fin 1024).val).tdiv 2) :=
  ⟨(C10_threshold_midpoint 501 450).2.2.1 (by decide) (by decide),
   ((C10_threshold_midpoint 501 450).2.2.2.2 (by decide)).2,
   (C10_threshold_midpoint 450 501).2.1.mpr (Or.inr (by decide)),
   ((C10_threshold_midpoint 450 501).2.2.2.2 (by decide)).2,
   (C10_threshold_midpoint 500 450).2.1.mpr (Or.inl (by decide))⟩

/-- C7: the delay of line 157, `random(100, 1000)`, is at least 100 and below
1000 for every raw output of the generator, every value from 100 to 999 is
the delay for some raw output in the range of a non-negative `long`, and
`pace` waits exactly that many milliseconds. -/
theorem C7_random_delay_range :
    (∀ r : Nat, 100 ≤ random 100 1000 r ∧ random 100 1000 r < 1000)
      ∧ (∀ d : Int, 100 ≤ d → d < 1000 → ∃ r : Nat, r < 2147483648 ∧ random 100 1000 r = d)
      ∧ (∀ (m : Machine) (r : Nat) (rs : List Nat), m.rng = r :: rs →
          ∃ d : Nat, (d : Int) = random 100 1000 r ∧ 100 ≤ d ∧ d < 1000
            ∧ pace m = .done () (delay d { m with rng := rs })) := by
  refine ⟨?_, ?_, ?_⟩
  · intro r
    unfold random
    simp only [ge_iff_le, show ¬ ((1000 : Int) ≤ 100) by decide, if_false]
    omega
  · intro d h1 h2
    refine ⟨(d - 100).toNat, by omega, ?_⟩
    unfold random
    simp only [ge_iff_le, show ¬ ((1000 : Int) ≤ 100) by decide, if_false]
    omega
  · intro m r rs h
    have hr : 100 ≤ random 100 1000 r ∧ random 100 1000 r < 1000 := by
      unfold random
      simp only [ge_iff_le, show ¬ ((1000 : Int) ≤ 100) by decide, if_false]
      omega
    refine ⟨(random 100 1000 r).toNat, by omega, by omega, by omega, ?_⟩
    simp [pace, rawRandom, h]

/-- Witness of `C7_random_delay_range`: the delay 999 is reached, and a machine
whose generator yields 899 next waits 999 ms. -/
theorem C7_random_delay_range_witness :
    (∃ r : Nat, r < 2147483648 ∧ random 100 1000 r = 999)
      ∧ ∃ d : Nat, (d : Int) = random 100 1000 899 ∧ 100 ≤ d ∧ d < 1000
          ∧ pace (boot [] [] [899]) = .done () (delay d { boot [] [] [899] with rng := [] }) :=
  ⟨C7_random_delay_range.2.1 999 (by decide) (by decide),
   C7_random_delay_range.2.2 (boot [] [] [899]) 899 [] rfl⟩

/-- C2: with readings `blackLevel` then `whiteLevel`, `calibrate()` stores the
threshold `blackLevel - (blackLevel - whiteLevel)/2`, returns 1 if and only
if that threshold is at least 100 and returns 0 if and only if it is below
100; readings 500 and 450 give threshold 475 and success, readings 80 and 60
give threshold 70 and failure. -/
theorem C2_calibrate_verdict (m : Machine) (b w : Sample) (rest : List Sample)
    (h : m.sensor = b :: w :: rest) :
    (calibrate m).machine.threshold = (b.value.val : Int) - ((b.value.val : Int) - w.value.val).tdiv 2
      ∧ ((calibrate m).result = some 1
          ↔ 100 ≤ (b.value.val : Int) - ((b.value.val : Int) - w.value.val).tdiv 2)
      ∧ ((calibrate m).result = some 0
          ↔ (b.value.val : Int) - ((b.value.val : Int) - w.value.val).tdiv 2 < 100)
      ∧ (b.value = 500 → w.value = 450 →
          (calibrate m).machine.threshold = 475 ∧ (calibrate m).result = some 1)
      ∧ (b.value = 80 → w.value = 60 →
          (calibrate m).machine.threshold = 70 ∧ (calibrate m).result = some 0) := by
  rw [calibrate_eq m b w rest h, ← thresholdOf_eq]
  refine ⟨rfl, ?_, ?_, ?_, ?_⟩
  · by_cases ht : thresholdOf b.value.val w.value.val < 100
    · simp [Run.result, ht]
    · simp [Run.result, ht]; omega
  · by_cases ht : thresholdOf b.value.val w.value.val < 100
    · simp [Run.result, ht]
    · simp [Run.result, ht]
  · intro hb hw
    have ht : thresholdOf (500 : Fin 1024).val (450 : Fin 1024).val = 475 := by decide
    simp [Run.machine, Run.result, calibrated, hb, hw, ht]
  · intro hb hw
    have ht : thresholdOf (80 : Fin 1024).val (60 : Fin 1024).val = 70 := by decide
    simp [Run.machine, Run.result, calibrated, hb, hw, ht]

/-- Witness of `C2_calibrate_verdict` on the readings 500 and 450. -/
theorem C2_calibrate_verdict_witness :
    (calibrate goodDisplay).machine.threshold
        = (((⟨3, 500⟩ : Sample).value.val : Int))
            - (((⟨3, 500⟩ : Sample).value.val : Int) - (⟨4, 450⟩ : Sample).value.val).tdiv 2
      ∧ ((calibrate goodDisplay).result = some 1
          ↔ 100 ≤ (((⟨3, 500⟩ : Sample).value.val : Int))
            - (((⟨3, 500⟩ : Sample).value.val : Int) - (⟨4, 450⟩ : Sample).value.val).tdiv 2)
      ∧ ((calibrate goodDisplay).result = some 0
          ↔ (((⟨3, 500⟩ : Sample).value.val : Int))
            - (((⟨3, 500⟩ : Sample).value.val : Int) - (⟨4, 450⟩ : Sample).value.val).tdiv 2
              < 100)
      ∧ ((⟨3, 500⟩ : Sample).value = 500 → (⟨4, 450⟩ : Sample).value = 450 →
          (calibrate goodDisplay).machine.threshold = 475
            ∧ (calibrate goodDisplay).result = some 1)
      ∧ ((⟨3, 500⟩ : Sample).value = 80 → (⟨4, 450⟩ : Sample).value = 60 →
          (calibrate goodDisplay).machine.threshold = 70
            ∧ (calibrate goodDisplay).result = some 0) :=
  C2_calibrate_verdict goodDisplay ⟨3, 500⟩ ⟨4, 450⟩ [] rfl

/-- C3 (as stated), refuted: when both samples read 512 `calibrate()` accepts
(returns 1) and leaves threshold 512, equal to both `blackValue` and
`whiteValue`, so not strictly between them. -/
theorem C3_counterexample :
    (calibrate flatDisplay).result = some 1
      ∧ (calibrate flatDisplay).machine.blackValue = 512
      ∧ (calibrate flatDisplay).machine.whiteValue = 512
      ∧ (calibrate flatDisplay).machine.threshold = 512
      ∧ ¬ strictlyBetween (calibrate flatDisplay).machine.threshold
            (calibrate flatDisplay).machine.whiteValue
            (calibrate flatDisplay).machine.blackValue := by
  decide

/-- C3 (amended): every calibration that `calibrate()` accepts leaves the two
readings in `blackValue` and `whiteValue` and a threshold of at least 100 that
lies between them, bounds included; it lies strictly between them whenever
the two readings differ by at least 2. -/
theorem C3_accepted_calibration (m : Machine) (b w : Sample) (rest : List Sample)
    (h : m.sensor = b :: w :: rest) (hok : (calibrate m).result = some 1) :
    (calibrate m).machine.blackValue = b.value.val
      ∧ (calibrate m).machine.whiteValue = w.value.val
      ∧ 100 ≤ (calibrate m).machine.threshold
      ∧ (((calibrate m).machine.whiteValue ≤ (calibrate m).machine.threshold
            ∧ (calibrate m).machine.threshold ≤ (calibrate m).machine.blackValue)
          ∨ ((calibrate m).machine.blackValue ≤ (calibrate m).machine.threshold
            ∧ (calibrate m).machine.threshold ≤ (calibrate m).machine.whiteValue))
      ∧ (((w.value.val : Int) + 2 ≤ b.value.val ∨ (b.value.val : Int) + 2 ≤ w.value.val) →
          strictlyBetween (calibrate m).machine.threshold
            (calibrate m).machine.whiteValue (calibrate m).machine.blackValue) := by
  rw [calibrate_eq m b w rest h] at hok ⊢
  have ht : ¬ thresholdOf b.value.val w.value.val < 100 := by
    intro hlt
    simp [Run.result, hlt] at hok
  simp only [Run.machine, calibrated, strictlyBetween]
  have he := thresholdOf_eq b.value w.value
  rw [tdiv_two] at he
  refine ⟨trivial, trivial, by omega, ?_, ?_⟩
  · split at he <;> omega
  · intro hd
    split at he <;> omega

/-- Witness of `C3_accepted_calibration` on the readings 500 and 450. -/
theorem C3_accepted_calibration_witness :
    (calibrate goodDisplay).machine.blackValue = (⟨3, 500⟩ : Sample).value.val
      ∧ (calibrate goodDisplay).machine.whiteValue = (⟨4, 450⟩ : Sample).value.val
      ∧ 100 ≤ (calibrate goodDisplay).machine.threshold
      ∧ (((calibrate goodDisplay).machine.whiteValue ≤ (calibrate goodDisplay).machine.threshold
            ∧ (calibrate goodDisplay).machine.threshold
                ≤ (calibrate goodDisplay).machine.blackValue)
          ∨ ((calibrate goodDisplay).machine.blackValue
                ≤ (calibrate goodDisplay).machine.threshold
            ∧ (calibrate goodDisplay).machine.threshold
                ≤ (calibrate goodDisplay).machine.whiteValue))
      ∧ ((((⟨4, 450⟩ : Sample).value.val : Int) + 2 ≤ (⟨3, 500⟩ : Sample).value.val
            ∨ ((⟨3, 500⟩ : Sample).value.val : Int) + 2 ≤ (⟨4, 450⟩ : Sample).value.val) →
          strictlyBetween (calibrate goodDisplay).machine.threshold
            (calibrate goodDisplay).machine.whiteValue
            (calibrate goodDisplay).machine.blackValue) :=
  C3_accepted_calibration goodDisplay ⟨3, 500⟩ ⟨4, 450⟩ [] rfl (by decide)

/-! ## Serial lines of a log -/

/-- Actions that do not write to the serial port do not contribute to the lines. -/
theorem linesFrom_silent_append (a b : List (Nat × Event)) (cur : String)
    (ha : ∀ e ∈ a, isSerial e = false) : linesFrom cur (a ++ b) = linesFrom cur b := by
  induction a with
  | nil => rfl
  | cons e a ih =>
    have ih := ih (fun e he => ha e (List.mem_cons_of_mem _ he))
    have he := ha e (List.mem_cons_self _ _)
    obtain ⟨c, ev⟩ := e
    cases ev <;> simp_all [linesFrom, isSerial]

/-- A log without serial actions has no lines. -/
theorem linesFrom_silent (a : List (Nat × Event)) (cur : String)
    (ha : ∀ e ∈ a, isSerial e = false) : linesFrom cur a = [] := by
  have h := linesFrom_silent_append a [] cur ha
  simpa [linesFrom] using h

/-- Polls do not write to the serial port. -/
theorem pollLog_silent (ss : List Sample) (c : Nat) : ∀ e ∈ pollLog c ss, isSerial e = false := by
  induction ss generalizing c with
  | nil => simp [pollLog]
  | cons s ss ih =>
    intro e he
    simp only [pollLog, List.mem_cons] at he
    rcases he with rfl | he
    · rfl
    · exact ih _ e he

/-- The wait for the dark display does not write to the serial port. -/
theorem darkWaitLog_silent (ss : List Sample) (c : Nat) :
    ∀ e ∈ darkWaitLog c ss, isSerial e = false := by
  induction ss generalizing c with
  | nil => simp [darkWaitLog]
  | cons s ss ih =>
    intro e he
    simp only [darkWaitLog, List.mem_cons] at he
    rcases he with rfl | rfl | he
    · rfl
    · rfl
    · exact ih _ e he

/-- Entries a run added, when its log extends the starting log by `evs`. -/
theorem emitted_eq {α : Type} (m : Machine) (r : Run α) (evs : List (Nat × Event))
    (h : r.machine.log = m.log ++ evs) : emitted m r = evs := by
  simp [emitted, h]

/-! ## A disabled tick -/

/-- A tick that reads the switch `HIGH` only clears `lastState` and waits 100 ms. -/
theorem loop_disabled (m : Machine) (rest : List Bool) (h : m.switch = HIGH :: rest) :
    loop m = .done ()
      { m with
        lastState := OFF
        switch := rest
        clock := m.clock + 100000
        log := m.log ++ [(m.clock, .digitalRead .PIN_STATE true),
                         (m.clock + 100000, .delay 100)] } := by
  simp [loop, digitalRead, h, record, delay, HIGH]

/-! ## The wait for the dark display (line 149) -/

/-- On any script, the wait of line 149 keeps the calibration and logs no serial action. -/
theorem awaitDark_frame (fuel : Nat) : ∀ m : Machine,
    SameSettings m (awaitDark fuel m).machine
      ∧ ∃ evs, (awaitDark fuel m).machine.log = m.log ++ evs
          ∧ ∀ e ∈ evs, isSerial e = false := by
  induction fuel with
  | zero =>
    intro m
    exact ⟨⟨rfl, rfl, rfl, rfl, rfl⟩, [], by simp [awaitDark, Run.machine], by simp⟩
  | succ fuel ih =>
    intro m
    cases hs : m.sensor with
    | nil =>
      exact ⟨by simp [awaitDark, analogRead, hs, Run.machine, SameSettings],
        [], by simp [awaitDark, analogRead, hs, Run.machine], by simp⟩
    | cons s rest =>
      by_cases hlt : (s.value.val : Int) < m.threshold
      · obtain ⟨hk, evs, hlog, hsil⟩ := ih (delay 500
          (record (.analogRead .PIN_SENSOR (s.value.val : Int))
            { m with clock := m.clock + s.elapsed, sensor := rest }))
        simp only [awaitDark, analogRead, hs, record, hlt, if_true]
        simp only [record] at hk hlog
        refine ⟨?_, ?_⟩
        · simpa [SameSettings, delay, record] using hk
        · refine ⟨(m.clock + s.elapsed, .analogRead .PIN_SENSOR (s.value.val : Int))
            :: (m.clock + s.elapsed + 500000, .delay 500) :: evs, ?_, ?_⟩
          · rw [hlog]; simp [delay, record]
          · intro e he
            simp only [List.mem_cons] at he
            rcases he with rfl | rfl | he
            · rfl
            · rfl
            · exact hsil e he
      · refine ⟨by simp [awaitDark, analogRead, hs, record, hlt, Run.machine, SameSettings],
          [(m.clock + s.elapsed, .analogRead .PIN_SENSOR (s.value.val : Int))], ?_, ?_⟩
        · simp [awaitDark, analogRead, hs, record, hlt, Run.machine]
        · intro e he
          simp only [List.mem_singleton] at he
          subst he
          rfl

/-! ## The poll loop of a trial (lines 134-154) -/

/-- On any script, the body of the `if` keeps the calibration; it logs the
timestamp, the latency line and the release of the button, and no serial
action after that. -/
theorem onCrossing_frame (m : Machine) :
    SameSettings m (onCrossing m).machine
      ∧ ∃ evs, (onCrossing m).machine.log
          = m.log ++ [(m.clock, .micros (m.clock % ULONG_RANGE)),
                      (m.clock, .print (toString (ulongSub (m.clock % ULONG_RANGE) m.time))),
                      (m.clock, .println),
                      (m.clock, .digitalWrite .PIN_LED_THRESH true),
                      (m.clock + 500000, .delay 500),
                      (m.clock + 500000, .digitalWrite .PIN_CLICK false),
                      (m.clock + 500000, .digitalWrite .PIN_LED_CLICK false)] ++ evs
          ∧ ∀ e ∈ evs, isSerial e = false := by
  have hdef : onCrossing m
      = (awaitDark
          ((digitalWrite .PIN_LED_CLICK LOW (digitalWrite .PIN_CLICK LOW (delay 500
            (digitalWrite .PIN_LED_THRESH HIGH (serialPrintln (serialPrint
              (toString (ulongSub (micros m).1 (micros m).2.time)) (micros m).2)))))).sensor.length
            + 1)
          (digitalWrite .PIN_LED_CLICK LOW (digitalWrite .PIN_CLICK LOW (delay 500
            (digitalWrite .PIN_LED_THRESH HIGH (serialPrintln (serialPrint
              (toString (ulongSub (micros m).1 (micros m).2.time)) (micros m).2))))))).andThen
          fun _ m => .done () (digitalWrite .PIN_LED_THRESH LOW m) := rfl
  rw [hdef]
  generalize hm7 : digitalWrite .PIN_LED_CLICK LOW (digitalWrite .PIN_CLICK LOW (delay 500
      (digitalWrite .PIN_LED_THRESH HIGH (serialPrintln (serialPrint
        (toString (ulongSub (micros m).1 (micros m).2.time)) (micros m).2))))) = m7
  have h7 : SameSettings m m7 ∧ m7.log
      = m.log ++ [(m.clock, .micros (m.clock % ULONG_RANGE)),
                  (m.clock, .print (toString (ulongSub (m.clock % ULONG_RANGE) m.time))),
                  (m.clock, .println),
                  (m.clock, .digitalWrite .PIN_LED_THRESH true),
                  (m.clock + 500000, .delay 500),
                  (m.clock + 500000, .digitalWrite .PIN_CLICK false),
                  (m.clock + 500000, .digitalWrite .PIN_LED_CLICK false)] := by
    subst hm7
    simp [SameSettings, micros, serialPrint, serialPrintln, digitalWrite, delay, record,
      HIGH, LOW]
  obtain ⟨⟨k1, k2, k3, k4, k5⟩, hlog7⟩ := h7
  obtain ⟨⟨d1, d2, d3, d4, d5⟩, evs, hlog, hsil⟩ := awaitDark_frame (m7.sensor.length + 1) m7
  cases hr : awaitDark (m7.sensor.length + 1) m7 with
  | stuck m8 =>
    rw [hr] at d1 d2 d3 d4 d5 hlog
    simp only [Run.machine] at d1 d2 d3 d4 d5 hlog
    refine ⟨⟨?_, ?_, ?_, ?_, ?_⟩, evs, ?_, hsil⟩
    · simp [Run.andThen, Run.machine, d1, k1]
    · simp [Run.andThen, Run.machine, d2, k2]
    · simp [Run.andThen, Run.machine, d3, k3]
    · simp [Run.andThen, Run.machine, d4, k4]
    · simp [Run.andThen, Run.machine, d5, k5]
    · simp [Run.andThen, Run.machine, hlog, hlog7]
  | done u m8 =>
    rw [hr] at d1 d2 d3 d4 d5 hlog
    simp only [Run.machine] at d1 d2 d3 d4 d5 hlog
    refine ⟨⟨?_, ?_, ?_, ?_, ?_⟩, evs ++ [(m8.clock, .digitalWrite .PIN_LED_THRESH false)],
      ?_, ?_⟩
    · simp [Run.andThen, Run.machine, digitalWrite, record, d1, k1]
    · simp [Run.andThen, Run.machine, digitalWrite, record, d2, k2]
    · simp [Run.andThen, Run.machine, digitalWrite, record, d3, k3]
    · simp [Run.andThen, Run.machine, digitalWrite, record, d4, k4]
    · simp [Run.andThen, Run.machine, digitalWrite, record, d5, k5]
    · simp [Run.andThen, Run.machine, digitalWrite, record, hlog, hlog7, LOW]
    · intro e he
      simp only [List.mem_append, List.mem_singleton] at he
      rcases he with he | rfl
      · exact hsil e he
      · rfl

/-- On any script, the poll loop keeps the calibration, and the serial actions it
logs complete no line at all or exactly one line, which consists of the
decimal rendering of one unsigned 32-bit value. -/
theorem awaitBright_frame (fuel : Nat) : ∀ m : Machine,
    SameSettings m (awaitBright fuel m).machine
      ∧ ∃ evs, (awaitBright fuel m).machine.log = m.log ++ evs
          ∧ ∀ cur : String, linesFrom cur evs = []
              ∨ ∃ n : Nat, n < ULONG_RANGE ∧ linesFrom cur evs = [cur ++ toString n] := by
  induction fuel with
  | zero =>
    intro m
    exact ⟨⟨rfl, rfl, rfl, rfl, rfl⟩, [], by simp [awaitBright, Run.machine],
      fun cur => Or.inl rfl⟩
  | succ fuel ih =>
    intro m
    cases hs : m.sensor with
    | nil =>
      exact ⟨by simp [awaitBright, analogRead, hs, Run.machine, SameSettings],
        [], by simp [awaitBright, analogRead, hs, Run.machine], fun cur => Or.inl rfl⟩
    | cons s rest =>
      by_cases hlt : (s.value.val : Int) < m.threshold
      · obtain ⟨hk, evs, hlog, hsil⟩ := onCrossing_frame
          (record (.analogRead .PIN_SENSOR (s.value.val : Int))
            { m with clock := m.clock + s.elapsed, sensor := rest })
        simp only [awaitBright, analogRead, hs, record, hlt, if_true]
        simp only [record] at hk hlog
        refine ⟨by simpa [SameSettings] using hk, _, by rw [hlog]; simp; rfl, ?_⟩
        intro cur
        right
        refine ⟨ulongSub ((m.clock + s.elapsed) % ULONG_RANGE) m.time, ?_, ?_⟩
        · unfold ulongSub ULONG_RANGE; omega
        · simp [linesFrom, linesFrom_silent _ _ hsil]
      · obtain ⟨hk, evs, hlog, hlines⟩ := ih
          (record (.analogRead .PIN_SENSOR (s.value.val : Int))
            { m with clock := m.clock + s.elapsed, sensor := rest })
        simp only [awaitBright, analogRead, hs, record, hlt, if_false]
        simp only [record] at hk hlog
        refine ⟨by simpa [SameSettings] using hk,
          (m.clock + s.elapsed, .analogRead .PIN_SENSOR (s.value.val : Int)) :: evs,
          by rw [hlog]; simp, ?_⟩
        intro cur
        simpa [linesFrom] using hlines cur

/-- Polls that do not read below the threshold only advance the clock and the log. -/
theorem awaitBright_skip (pre rest : List Sample) : ∀ (m : Machine) (fuel : Nat),
    m.sensor = pre ++ rest → (∀ s ∈ pre, ¬ ((s.value.val : Int) < m.threshold)) →
    awaitBright (fuel + pre.length) m
      = awaitBright fuel
          { m with
            clock := m.clock + elapsedOf pre
            sensor := rest
            log := m.log ++ pollLog m.clock pre } := by
  induction pre with
  | nil =>
    intro m fuel hs _
    simp only [List.nil_append] at hs
    simp [elapsedOf, pollLog, ← hs]
  | cons s pre ih =>
    intro m fuel hs hpre
    have hge : ¬ ((s.value.val : Int) < m.threshold) := hpre s (List.mem_cons_self _ _)
    simp only [List.cons_append] at hs
    rw [List.length_cons, ← Nat.add_assoc]
    simp only [awaitBright, analogRead, hs, record, hge, if_false]
    rw [ih]
    · simp [elapsedOf, pollLog, Nat.add_assoc]
    · rfl
    · exact fun t ht => hpre t (List.mem_cons_of_mem _ ht)

/-- The first poll that reads below the threshold enters the body of the `if`. -/
theorem awaitBright_cross (m : Machine) (fuel : Nat) (x : Sample) (rest : List Sample)
    (hs : m.sensor = x :: rest) (hx : (x.value.val : Int) < m.threshold) :
    awaitBright (fuel + 1) m
      = onCrossing
          { m with
            clock := m.clock + x.elapsed
            sensor := rest
            log := m.log ++ [(m.clock + x.elapsed, .analogRead .PIN_SENSOR (x.value.val : Int))] } := by
  simp [awaitBright, analogRead, hs, record, hx]

/-- A trial whose polls read at or above the threshold over `pre` and below it at `x`
reaches the body of the `if` in the machine given here. -/
theorem trial_crossing (m : Machine) (pre : List Sample) (x : Sample) (rest : List Sample)
    (hs : m.sensor = pre ++ x :: rest)
    (hpre : ∀ s ∈ pre, ¬ ((s.value.val : Int) < m.threshold))
    (hx : (x.value.val : Int) < m.threshold) :
    trial m
      = onCrossing
          { m with
            time := m.clock % ULONG_RANGE
            clock := m.clock + elapsedOf pre + x.elapsed
            sensor := rest
            log := m.log ++ [(m.clock, .digitalWrite .PIN_CLICK true),
                             (m.clock, .digitalWrite .PIN_LED_CLICK true),
                             (m.clock, .micros (m.clock % ULONG_RANGE))]
                    ++ pollLog m.clock pre
                    ++ [(m.clock + elapsedOf pre + x.elapsed,
                          .analogRead .PIN_SENSOR (x.value.val : Int))] } := by
  have hlen : m.sensor.length + 1 = (rest.length + 1 + 1) + pre.length := by
    rw [hs]; simp; omega
  simp only [trial, micros, digitalWrite, record, HIGH]
  rw [hlen, awaitBright_skip pre (x :: rest)]
  · rw [awaitBright_cross _ _ x rest]
    · simp [Nat.add_assoc]
    · rfl
    · exact hx
  · exact hs
  · exact hpre

/-- Unsigned 32-bit difference of two timestamps that are `T < 2^32` microseconds apart. -/
theorem ulongSub_elapsed (c T : Nat) (hT : T < ULONG_RANGE) :
    ulongSub ((c + T) % ULONG_RANGE) (c % ULONG_RANGE) = T := by
  unfold ulongSub ULONG_RANGE at *
  omega

/-- A trial whose polls read at or above the threshold over `pre` and below it at
`x`, on any continuation of the script: its log up to the release of the
button, followed by actions that do not write to the serial port. -/
theorem trial_log (m : Machine) (pre : List Sample) (x : Sample) (rest : List Sample)
    (hs : m.sensor = pre ++ x :: rest)
    (hpre : ∀ s ∈ pre, ¬ ((s.value.val : Int) < m.threshold))
    (hx : (x.value.val : Int) < m.threshold) :
    SameSettings m (trial m).machine
      ∧ ∃ evs, (trial m).machine.log
          = m.log ++ ([(m.clock, .digitalWrite .PIN_CLICK true),
                      (m.clock, .digitalWrite .PIN_LED_CLICK true),
                      (m.clock, .micros (m.clock % ULONG_RANGE))]
              ++ pollLog m.clock pre
              ++ [(m.clock + elapsedOf pre + x.elapsed,
                    .analogRead .PIN_SENSOR (x.value.val : Int)),
                  (m.clock + elapsedOf pre + x.elapsed,
                    .micros ((m.clock + elapsedOf pre + x.elapsed) % ULONG_RANGE)),
                  (m.clock + elapsedOf pre + x.elapsed,
                    .print (toString (ulongSub ((m.clock + elapsedOf pre + x.elapsed) % ULONG_RANGE)
                      (m.clock % ULONG_RANGE)))),
                  (m.clock + elapsedOf pre + x.elapsed, .println),
                  (m.clock + elapsedOf pre + x.elapsed, .digitalWrite .PIN_LED_THRESH true),
                  (m.clock + elapsedOf pre + x.elapsed + 500000, .delay 500),
                  (m.clock + elapsedOf pre + x.elapsed + 500000, .digitalWrite .PIN_CLICK false),
                  (m.clock + elapsedOf pre + x.elapsed + 500000,
                    .digitalWrite .PIN_LED_CLICK false)]
              ++ evs)
          ∧ ∀ e ∈ evs, isSerial e = false := by
  rw [trial_crossing m pre x rest hs hpre hx]
  obtain ⟨hk, evs, hlog, hsil⟩ := onCrossing_frame
    { m with
      time := m.clock % ULONG_RANGE
      clock := m.clock + elapsedOf pre + x.elapsed
      sensor := rest
      log := m.log ++ [(m.clock, .digitalWrite .PIN_CLICK true),
                       (m.clock, .digitalWrite .PIN_LED_CLICK true),
                       (m.clock, .micros (m.clock % ULONG_RANGE))]
              ++ pollLog m.clock pre
              ++ [(m.clock + elapsedOf pre + x.elapsed,
                    .analogRead .PIN_SENSOR (x.value.val : Int))] }
  refine ⟨by simpa [SameSettings] using hk, evs, ?_, hsil⟩
  rw [hlog]
  simp

/-- Serial lines of the log of `trial_log`: the latency line alone. -/
theorem trial_lines (c T : Nat) (pre : List Sample) (x : Sample)
    (head evs : List (Nat × Event)) (hhead : ∀ e ∈ head, isSerial e = false)
    (hsil : ∀ e ∈ evs, isSerial e = false) :
    serialLines
      (head ++ ([(c, .digitalWrite .PIN_CLICK true),
        (c, .digitalWrite .PIN_LED_CLICK true),
        (c, .micros (c % ULONG_RANGE))]
        ++ pollLog c pre
        ++ [(c + elapsedOf pre + x.elapsed, .analogRead .PIN_SENSOR (x.value.val : Int)),
            (c + elapsedOf pre + x.elapsed,
              .micros ((c + elapsedOf pre + x.elapsed) % ULONG_RANGE)),
            (c + elapsedOf pre + x.elapsed, .print (toString T)),
            (c + elapsedOf pre + x.elapsed, .println),
            (c + elapsedOf pre + x.elapsed, .digitalWrite .PIN_LED_THRESH true),
            (c + elapsedOf pre + x.elapsed + 500000, .delay 500),
            (c + elapsedOf pre + x.elapsed + 500000, .digitalWrite .PIN_CLICK false),
            (c + elapsedOf pre + x.elapsed + 500000, .digitalWrite .PIN_LED_CLICK false)]
        ++ evs))
      = [toString T] := by
  unfold serialLines
  rw [linesFrom_silent_append _ _ _ hhead, List.append_assoc, List.append_assoc,
    linesFrom_silent_append _ _ _ (by simp [isSerial]),
    linesFrom_silent_append _ _ _ (pollLog_silent pre c)]
  simp [linesFrom, linesFrom_silent _ _ hsil]

/-! ## One tick of `loop()` -/

/-- On any script, the random pause keeps the calibration and logs no serial action. -/
theorem pace_frame (m : Machine) :
    SameSettings m (pace m).machine
      ∧ ∃ evs, (pace m).machine.log = m.log ++ evs ∧ ∀ e ∈ evs, isSerial e = false := by
  cases hr : m.rng with
  | nil =>
    exact ⟨by simp [pace, rawRandom, hr, Run.machine, SameSettings], [],
      by simp [pace, rawRandom, hr, Run.machine], by simp⟩
  | cons r rs =>
    refine ⟨by simp [pace, rawRandom, hr, Run.machine, SameSettings, delay, record],
      [(m.clock + 1000 * (random 100 1000 r).toNat, .delay (random 100 1000 r).toNat)], ?_, ?_⟩
    · simp [pace, rawRandom, hr, Run.machine, delay, record]
    · intro e he
      simp only [List.mem_singleton] at he
      subst he
      rfl

/-- An enabled tick of a device that was on before runs no calibration: it is the
trial followed by the random pause. -/
theorem loop_enabled_on (m : Machine) (sw : List Bool) (hsw : m.switch = LOW :: sw)
    (hon : m.lastState = ON) :
    loop m
      = (trial { m with
            switch := sw
            log := m.log ++ [(m.clock, .digitalRead .PIN_STATE false)] }).andThen
          fun _ m => pace m := by
  simp [loop, digitalRead, hsw, record, activate, hon, LOW, HIGH, ON, OFF, Run.andThen]

/-- C4: a trial whose polls read at or above the threshold until the first poll
that reads below it, `T < 2^32` microseconds after the start timestamp,
emits exactly one line, the decimal rendering of `T`: for every threshold,
every clock value at the start (the 32-bit counter may wrap in between),
every number of polls before the crossing and every continuation of the
script.  The same holds for the whole tick of `loop()` of an enabled device
that was on before. -/
theorem C4_trial_latency (m : Machine) (pre : List Sample) (x : Sample) (rest : List Sample)
    (T : Nat) (hs : m.sensor = pre ++ x :: rest)
    (hpre : ∀ s ∈ pre, m.threshold ≤ (s.value.val : Int))
    (hx : (x.value.val : Int) < m.threshold)
    (hT : T = elapsedOf pre + x.elapsed) (hlt : T < 2 ^ 32) :
    serialLines (emitted m (trial m)) = [toString T]
      ∧ ∀ sw : List Bool, m.switch = LOW :: sw → m.lastState = ON →
          serialLines (emitted m (loop m)) = [toString T] := by
  have hpre' : ∀ s ∈ pre, ¬ ((s.value.val : Int) < m.threshold) :=
    fun s hmem => not_lt.mpr (hpre s hmem)
  have hsub : ∀ c : Nat, ulongSub ((c + elapsedOf pre + x.elapsed) % ULONG_RANGE)
      (c % ULONG_RANGE) = T := by
    intro c
    rw [Nat.add_assoc, ← hT]
    exact ulongSub_elapsed c T (by simpa [ULONG_RANGE] using hlt)
  constructor
  · obtain ⟨_, evs, hlog, hsil⟩ := trial_log m pre x rest hs hpre' hx
    simp only [hsub] at hlog
    rw [emitted_eq m _ _ hlog]
    simpa using trial_lines m.clock T pre x [] evs (by simp) hsil
  · intro sw hsw hon
    rw [loop_enabled_on m sw hsw hon]
    obtain ⟨_, evs, hlog, hsil⟩ := trial_log
      { m with switch := sw, log := m.log ++ [(m.clock, .digitalRead .PIN_STATE false)] }
      pre x rest hs hpre' hx
    simp only [hsub] at hlog
    cases htr : trial { m with
        switch := sw, log := m.log ++ [(m.clock, .digitalRead .PIN_STATE false)] } with
    | stuck m1 =>
      rw [htr] at hlog
      simp only [Run.machine] at hlog
      rw [emitted_eq m _ _
        (by simp only [Run.andThen, Run.machine, hlog, List.append_assoc]; rfl)]
      simpa only [List.append_assoc] using
        trial_lines m.clock T pre x [(m.clock, .digitalRead .PIN_STATE false)] evs
          (by simp [isSerial]) hsil
    | done u m1 =>
      rw [htr] at hlog
      simp only [Run.machine] at hlog
      obtain ⟨_, evs2, hlog2, hsil2⟩ := pace_frame m1
      rw [emitted_eq m _ _
        (by simp only [Run.andThen, hlog2, hlog, List.append_assoc]; rfl)]
      have h := trial_lines m.clock T pre x [(m.clock, .digitalRead .PIN_STATE false)]
        (evs ++ evs2) (by simp [isSerial])
        (by
          intro e he
          rcases List.mem_append.mp he with he | he
          · exact hsil e he
          · exact hsil2 e he)
      simpa only [List.append_assoc] using h

/-- Witness of `C4_trial_latency`: the 32-bit counter wraps during the trial, three
polls precede the crossing, and the line reads 1000. -/
theorem C4_trial_latency_witness :
    serialLines (emitted wrappingTrial (trial wrappingTrial)) = [toString 1000]
      ∧ ∀ sw : List Bool, wrappingTrial.switch = LOW :: sw → wrappingTrial.lastState = ON →
          serialLines (emitted wrappingTrial (loop wrappingTrial)) = [toString 1000] :=
  C4_trial_latency wrappingTrial [⟨250, 500⟩, ⟨250, 480⟩, ⟨250, 475⟩] ⟨250, 470⟩ [⟨100, 500⟩]
    1000 rfl (by decide) (by decide) (by decide) (by decide)

/-- C6: a tick that reads the enable input as Disabled (`PIN_STATE` is `HIGH`), from
any prior state, only sets `lastState` to `OFF` and waits 100 ms: it writes
to no pin (the trigger is not asserted), consumes no sensor sample and no
random number, writes no serial line, and leaves `blackValue`, `whiteValue`
and `threshold` unchanged. -/
theorem C6_disabled_tick (m : Machine) (rest : List Bool) (h : m.switch = HIGH :: rest) :
    loop m = .done ()
        { m with
          lastState := OFF
          switch := rest
          clock := m.clock + 100000
          log := m.log ++ [(m.clock, .digitalRead .PIN_STATE true),
                           (m.clock + 100000, .delay 100)] }
      ∧ emitted m (loop m)
          = [(m.clock, .digitalRead .PIN_STATE true), (m.clock + 100000, .delay 100)]
      ∧ serialLines (emitted m (loop m)) = []
      ∧ (loop m).machine.sensor = m.sensor
      ∧ (loop m).machine.rng = m.rng
      ∧ (loop m).machine.blackValue = m.blackValue
      ∧ (loop m).machine.whiteValue = m.whiteValue
      ∧ (loop m).machine.threshold = m.threshold
      ∧ (loop m).machine.lastState = OFF := by
  have hl := loop_disabled m rest h
  refine ⟨hl, ?_, ?_, ?_, ?_, ?_, ?_, ?_, ?_⟩
  · rw [hl]; simp [emitted, Run.machine]
  · rw [hl]; simp [emitted, Run.machine, serialLines, linesFrom]
  all_goals rw [hl]; rfl

/-- Witness of `C6_disabled_tick` on a device that is switched off after a calibration. -/
theorem C6_disabled_tick_witness :
    loop switchedOff = .done ()
        { switchedOff with
          lastState := OFF
          switch := [LOW]
          clock := switchedOff.clock + 100000
          log := switchedOff.log ++ [(switchedOff.clock, .digitalRead .PIN_STATE true),
                           (switchedOff.clock + 100000, .delay 100)] }
      ∧ emitted switchedOff (loop switchedOff)
          = [(switchedOff.clock, .digitalRead .PIN_STATE true),
             (switchedOff.clock + 100000, .delay 100)]
      ∧ serialLines (emitted switchedOff (loop switchedOff)) = []
      ∧ (loop switchedOff).machine.sensor = switchedOff.sensor
      ∧ (loop switchedOff).machine.rng = switchedOff.rng
      ∧ (loop switchedOff).machine.blackValue = switchedOff.blackValue
      ∧ (loop switchedOff).machine.whiteValue = switchedOff.whiteValue
      ∧ (loop switchedOff).machine.threshold = switchedOff.threshold
      ∧ (loop switchedOff).machine.lastState = OFF :=
  C6_disabled_tick switchedOff [LOW] rfl

/-! ## The two kinds of lines -/

/-- The character of a decimal digit value is a decimal digit. -/
theorem digitChar_isDigit (d : Nat) (h : d < 10) : (Nat.digitChar d).isDigit = true := by
  interval_cases d <;> decide

/-- Decimal rendering produces decimal digits only. -/
theorem toDigitsCore_isDigit (fuel : Nat) : ∀ (n : Nat) (acc : List Char),
    (∀ c ∈ acc, c.isDigit = true) →
    ∀ c ∈ Nat.toDigitsCore 10 fuel n acc, c.isDigit = true := by
  induction fuel with
  | zero => intro n acc h; simpa [Nat.toDigitsCore] using h
  | succ fuel ih =>
    intro n acc h
    have hacc : ∀ c ∈ Nat.digitChar (n % 10) :: acc, c.isDigit = true := by
      intro c hc
      rcases List.mem_cons.mp hc with rfl | hc
      · exact digitChar_isDigit _ (Nat.mod_lt _ (by decide))
      · exact h c hc
    simp only [Nat.toDigitsCore]
    split
    · exact hacc
    · exact ih _ _ hacc

/-- Decimal rendering is never empty. -/
theorem toDigitsCore_ne_nil (fuel : Nat) : ∀ (n : Nat) (acc : List Char),
    (fuel ≠ 0 ∨ acc ≠ []) → Nat.toDigitsCore 10 fuel n acc ≠ [] := by
  induction fuel with
  | zero => intro n acc h; simpa [Nat.toDigitsCore] using h
  | succ fuel ih =>
    intro n acc _
    simp only [Nat.toDigitsCore]
    split
    · simp
    · exact ih _ _ (Or.inr (by simp))

/-- The decimal rendering of an unsigned value is a data line. -/
theorem isData_toString (n : Nat) : isData (toString n) = true := by
  have hd : (toString n).data = Nat.toDigitsCore 10 (n + 1) n [] := rfl
  have h1 := toDigitsCore_isDigit (n + 1) n [] (by simp)
  have h2 := toDigitsCore_ne_nil (n + 1) n [] (Or.inl (by simp))
  unfold isData
  rw [hd]
  simp only [Bool.and_eq_true, Bool.not_eq_true', List.all_eq_true]
  refine ⟨?_, h1⟩
  cases hl : Nat.toDigitsCore 10 (n + 1) n [] with
  | nil => exact absurd hl h2
  | cons c cs => rfl

/-- A data line is not a comment line. -/
theorem not_isComment_of_isData (line : String) (h : isData line = true) :
    isComment line = false := by
  unfold isData isComment at *
  cases hd : line.data with
  | nil => simp
  | cons c cs =>
    simp [hd] at h ⊢
    rintro rfl
    exact absurd h.1 (by decide)

/-- On any script, a trial keeps the settings; it first logs the trigger and the
start timestamp, and the serial lines it writes after that are none at all or
exactly one, the decimal rendering of an unsigned 32-bit value. -/
theorem trial_frame (m : Machine) :
    SameSettings m (trial m).machine
      ∧ ∃ evs, (trial m).machine.log
          = m.log ++ ([(m.clock, .digitalWrite .PIN_CLICK true),
                       (m.clock, .digitalWrite .PIN_LED_CLICK true),
                       (m.clock, .micros (m.clock % ULONG_RANGE))] ++ evs)
          ∧ (serialLines evs = []
              ∨ ∃ n : Nat, n < ULONG_RANGE ∧ serialLines evs = [toString n]) := by
  obtain ⟨hk, evs, hlog, hlines⟩ := awaitBright_frame (m.sensor.length + 1)
    { m with
      time := m.clock % ULONG_RANGE
      log := m.log ++ [(m.clock, .digitalWrite .PIN_CLICK true),
                       (m.clock, .digitalWrite .PIN_LED_CLICK true),
                       (m.clock, .micros (m.clock % ULONG_RANGE))] }
  have hdef : trial m = awaitBright (m.sensor.length + 1)
      { m with
        time := m.clock % ULONG_RANGE
        log := m.log ++ [(m.clock, .digitalWrite .PIN_CLICK true),
                         (m.clock, .digitalWrite .PIN_LED_CLICK true),
                         (m.clock, .micros (m.clock % ULONG_RANGE))] } := by
    simp [trial, micros, digitalWrite, record, HIGH]
  rw [hdef]
  refine ⟨by simpa [SameSettings] using hk, evs, ?_, ?_⟩
  · rw [hlog]; simp
  · unfold serialLines
    rcases hlines "" with h | ⟨n, hn, h⟩
    · exact Or.inl h
    · exact Or.inr ⟨n, hn, by simpa using h⟩

/-- C8: the two kinds of records on the serial channel are distinguishable.  A call
of `calibrate()` writes exactly the lines `# black: <blackValue>`,
`# white: <whiteValue>`, `# threshold: <threshold>` in that order, followed by
`# error: low threshold` exactly when it returns 0; each of them begins with
`#` and none is a bare integer.  Every line a trial writes, on any script, is
the decimal rendering of one unsigned 32-bit value, made of digits only, and
does not begin with `#`.  No line is of both kinds. -/
theorem C8_line_kinds :
    (∀ (m : Machine) (b w : Sample) (rest : List Sample), m.sensor = b :: w :: rest →
        serialLines (emitted m (calibrate m))
            = ["# black: " ++ toString (calibrate m).machine.blackValue,
               "# white: " ++ toString (calibrate m).machine.whiteValue,
               "# threshold: " ++ toString (calibrate m).machine.threshold]
              ++ (if (calibrate m).result = some 0 then ["# error: low threshold"] else [])
          ∧ ∀ line ∈ serialLines (emitted m (calibrate m)),
              isComment line = true ∧ isData line = false)
      ∧ (∀ (m : Machine), ∀ line ∈ serialLines (emitted m (trial m)),
          (∃ n : Nat, n < 2 ^ 32 ∧ line = toString n)
            ∧ isData line = true ∧ isComment line = false)
      ∧ (∀ line : String, ¬ (isComment line = true ∧ isData line = true)) := by
  refine ⟨?_, ?_, ?_⟩
  · intro m b w rest hs
    have hem : emitted m (calibrate m) = calibrateLog m.clock b w := by
      apply emitted_eq
      rw [calibrate_eq m b w rest hs]
      rfl
    have hlines : serialLines (emitted m (calibrate m))
        = ["# black: " ++ toString (calibrate m).machine.blackValue,
           "# white: " ++ toString (calibrate m).machine.whiteValue,
           "# threshold: " ++ toString (calibrate m).machine.threshold]
          ++ (if (calibrate m).result = some 0 then ["# error: low threshold"] else []) := by
      rw [hem, calibrate_eq m b w rest hs]
      by_cases ht : thresholdOf b.value.val w.value.val < 100
      · simp [serialLines, calibrateLog, linesFrom, ht, Run.machine, Run.result, calibrated]
      · simp [serialLines, calibrateLog, linesFrom, ht, Run.machine, Run.result, calibrated]
    refine ⟨hlines, ?_⟩
    rw [hlines]
    intro line hline
    simp only [List.mem_append, List.mem_cons, List.mem_singleton, List.not_mem_nil,
      or_false] at hline
    rcases hline with (rfl | rfl | rfl) | hline
    · exact ⟨by simp [isComment], by simp [isData]⟩
    · exact ⟨by simp [isComment], by simp [isData]⟩
    · exact ⟨by simp [isComment], by simp [isData]⟩
    · split at hline
      · simp only [List.mem_singleton] at hline
        subst hline
        exact ⟨by decide, by decide⟩
      · simp at hline
  · intro m line hline
    obtain ⟨_, evs, hlog, hl⟩ := trial_frame m
    rw [emitted_eq m _ _ hlog] at hline
    unfold serialLines at hline hl
    rw [linesFrom_silent_append _ _ _ (by simp [isSerial])] at hline
    rcases hl with h | ⟨n, hn, h⟩
    · simp [h] at hline
    · rw [h, List.mem_singleton] at hline
      subst hline
      exact ⟨⟨n, by simpa [ULONG_RANGE] using hn, rfl⟩, isData_toString n,
        not_isComment_of_isData _ (isData_toString n)⟩
  · rintro line ⟨hc, hd⟩
    rw [not_isComment_of_isData line hd] at hc
    exact Bool.noConfusion hc

/-- Witness of `C8_line_kinds` on the specification's failing calibration (80, 60). -/
theorem C8_line_kinds_witness :
    serialLines (emitted dimDisplay (calibrate dimDisplay))
        = ["# black: " ++ toString (calibrate dimDisplay).machine.blackValue,
           "# white: " ++ toString (calibrate dimDisplay).machine.whiteValue,
           "# threshold: " ++ toString (calibrate dimDisplay).machine.threshold]
          ++ (if (calibrate dimDisplay).result = some 0 then ["# error: low threshold"] else [])
      ∧ ∀ line ∈ serialLines (emitted dimDisplay (calibrate dimDisplay)),
          isComment line = true ∧ isData line = false :=
  C8_line_kinds.1 dimDisplay ⟨3, 80⟩ ⟨4, 60⟩ [] rfl

/-! ## Activation: calibration until it succeeds (lines 117-127) -/

/-- The retry loop over failing attempts `fails` followed by an attempt on `b`, `w`
that succeeds: it returns in the machine calibrated by that last attempt. -/
theorem calibrateUntilOk_run (fails : List (Sample × Sample)) (b w : Sample)
    (rest : List Sample) : ∀ (m : Machine) (fuel : Nat),
    m.sensor = retrySamples fails ++ b :: w :: rest →
    (∀ p ∈ fails, thresholdOf p.1.value.val p.2.value.val < 100) →
    ¬ (thresholdOf b.value.val w.value.val < 100) → fails.length + 1 ≤ fuel →
    calibrateUntilOk fuel m = .done ()
      (calibrated
        { m with
          clock := m.clock + retryTime fails
          log := m.log ++ retryLog m.clock fails } b w rest) := by
  induction fails with
  | nil =>
    intro m fuel hs _ hok hf
    obtain ⟨fuel, rfl⟩ : ∃ k, fuel = k + 1 := ⟨fuel - 1, by simp at hf; omega⟩
    simp only [retrySamples, List.nil_append] at hs
    simp [calibrateUntilOk, calibrate_eq m b w rest hs, hok, Run.andThen, calibrated,
      retryTime, retryLog]
  | cons p fails ih =>
    intro m fuel hs hfail hok hf
    obtain ⟨fuel, rfl⟩ : ∃ k, fuel = k + 1 := ⟨fuel - 1, by simp at hf; omega⟩
    obtain ⟨b', w'⟩ := p
    have hlow : thresholdOf b'.value.val w'.value.val < 100 :=
      hfail (b', w') (List.mem_cons_self _ _)
    simp only [retrySamples, List.cons_append] at hs
    simp only [calibrateUntilOk, calibrate_eq m b' w' _ hs, hlow, if_true, Run.andThen]
    rw [ih]
    · simp [calibrated, delay, record, retryTime, retryLog, Nat.add_assoc]
    · simp [calibrated, delay, record]
    · exact fun q hq => hfail q (List.mem_cons_of_mem _ hq)
    · exact hok
    · simp at hf; omega

/-- Number of samples the failed attempts consume. -/
theorem retrySamples_length (fails : List (Sample × Sample)) :
    (retrySamples fails).length = 2 * fails.length := by
  induction fails with
  | nil => rfl
  | cons p fails ih =>
    obtain ⟨b, w⟩ := p
    simp [retrySamples, ih]; omega

/-- Activation of a device that was off, over failing attempts followed by a
successful one. -/
theorem activate_off (m : Machine) (fails : List (Sample × Sample)) (b w : Sample)
    (rest : List Sample) (hoff : m.lastState = OFF)
    (hs : m.sensor = retrySamples fails ++ b :: w :: rest)
    (hfail : ∀ p ∈ fails, thresholdOf p.1.value.val p.2.value.val < 100)
    (hok : 100 ≤ thresholdOf b.value.val w.value.val) :
    activate m = .done ()
      { calibrated
          { m with
            clock := m.clock + retryTime fails
            log := m.log ++ retryLog m.clock fails } b w rest with
        lastState := ON } := by
  unfold activate
  rw [if_pos hoff, calibrateUntilOk_run fails b w rest m _ hs hfail (not_lt.mpr hok)
    (by rw [hs]; simp [retrySamples_length]; omega)]
  rfl

/-- Activation that returns leaves the device on. -/
theorem activate_done (m m1 : Machine) (h : activate m = .done () m1) : m1.lastState = ON := by
  unfold activate at h
  split at h
  · cases hc : calibrateUntilOk (m.sensor.length + 1) m with
    | stuck m2 => rw [hc] at h; simp [Run.andThen] at h
    | done u m2 =>
      rw [hc] at h
      simp only [Run.andThen, Run.done.injEq, true_and] at h
      rw [← h]
  · rename_i hne
    simp only [Run.done.injEq, true_and] at h
    rw [← h]
    cases hl : m.lastState with
    | true => rfl
    | false => exact absurd hl hne

/-- A run that continues and returns: its first part returned. -/
theorem andThen_done {α β : Type} (r : Run α) (k : α → Machine → Run β) (b : β) (m' : Machine)
    (h : r.andThen k = .done b m') : ∃ a m1, r = .done a m1 ∧ k a m1 = .done b m' := by
  cases r with
  | stuck m1 => simp [Run.andThen] at h
  | done a m1 => exact ⟨a, m1, rfl, h⟩

/-- On any script, a trial followed by the random pause keeps the settings and extends
the log, starting with the trigger and the start timestamp. -/
theorem trial_pace_frame (m : Machine) :
    SameSettings m ((trial m).andThen fun _ m => pace m).machine
      ∧ ∃ evs, ((trial m).andThen fun _ m => pace m).machine.log
          = m.log ++ ([(m.clock, .digitalWrite .PIN_CLICK true),
                       (m.clock, .digitalWrite .PIN_LED_CLICK true),
                       (m.clock, .micros (m.clock % ULONG_RANGE))] ++ evs) := by
  obtain ⟨⟨a1, a2, a3, a4, a5⟩, evs, hlog, _⟩ := trial_frame m
  cases ht : trial m with
  | stuck m1 =>
    rw [ht] at a1 a2 a3 a4 a5 hlog
    exact ⟨⟨a1, a2, a3, a4, a5⟩, evs, hlog⟩
  | done u m1 =>
    rw [ht] at a1 a2 a3 a4 a5 hlog
    simp only [Run.machine] at a1 a2 a3 a4 a5 hlog
    obtain ⟨⟨b1, b2, b3, b4, b5⟩, evs2, hlog2, _⟩ := pace_frame m1
    refine ⟨⟨?_, ?_, ?_, ?_, ?_⟩, evs ++ evs2, ?_⟩
    · simp only [Run.andThen]; rw [b1, a1]
    · simp only [Run.andThen]; rw [b2, a2]
    · simp only [Run.andThen]; rw [b3, a3]
    · simp only [Run.andThen]; rw [b4, a4]
    · simp only [Run.andThen]; rw [b5, a5]
    · simp only [Run.andThen]; rw [hlog2, hlog]; simp

/-- An enabled tick: activation, then the trial, then the random pause. -/
theorem loop_enabled (m : Machine) (sw : List Bool) (hsw : m.switch = LOW :: sw) :
    loop m
      = (activate { m with
            switch := sw
            log := m.log ++ [(m.clock, .digitalRead .PIN_STATE false)] }).andThen
          fun _ m => (trial m).andThen fun _ m => pace m := by
  simp [loop, digitalRead, hsw, record, LOW, HIGH]

/-- An enabled tick of a device that was off before, over failing calibration
attempts followed by a successful one: the trial runs in the machine
`activated`. -/
theorem loop_enabled_off (m : Machine) (sw : List Bool) (fails : List (Sample × Sample))
    (b w : Sample) (rest : List Sample) (hoff : m.lastState = OFF)
    (hsw : m.switch = LOW :: sw)
    (hs : m.sensor = retrySamples fails ++ b :: w :: rest)
    (hfail : ∀ p ∈ fails, thresholdOf p.1.value.val p.2.value.val < 100)
    (hok : 100 ≤ thresholdOf b.value.val w.value.val) :
    loop m = (trial (activated m sw fails b w rest)).andThen fun _ m => pace m := by
  rw [loop_enabled m sw hsw, activate_off _ fails b w rest]
  · simp [Run.andThen, activated, calibrated]
  · exact hoff
  · exact hs
  · exact hfail
  · exact hok

/-- While the switch stays on, ticks of a device that is on keep the calibration. -/
theorem ticks_enabled_frame (n : Nat) : ∀ m : Machine, m.lastState = ON →
    (∀ l ∈ m.switch.take n, l = LOW) →
    (ticks n m).machine.blackValue = m.blackValue
      ∧ (ticks n m).machine.whiteValue = m.whiteValue
      ∧ (ticks n m).machine.threshold = m.threshold := by
  induction n with
  | zero => intro m _ _; exact ⟨rfl, rfl, rfl⟩
  | succ n ih =>
    intro m hon hsw
    cases hm : m.switch with
    | nil => simp [ticks, loop, digitalRead, hm, Run.andThen, Run.machine]
    | cons l sw =>
      have hl : l = LOW := hsw l (by simp [hm])
      subst hl
      obtain ⟨⟨a1, a2, a3, a4, a5⟩, _⟩ := trial_pace_frame
        { m with switch := sw, log := m.log ++ [(m.clock, .digitalRead .PIN_STATE false)] }
      simp only [ticks, loop_enabled_on m sw hm hon]
      cases hr : (trial { m with
          switch := sw
          log := m.log ++ [(m.clock, .digitalRead .PIN_STATE false)] }).andThen
          fun _ m => pace m with
      | stuck m1 =>
        rw [hr] at a1 a2 a3
        exact ⟨a1, a2, a3⟩
      | done u m1 =>
        rw [hr] at a1 a2 a3 a4 a5
        simp only [Run.machine] at a1 a2 a3 a4 a5
        obtain ⟨b1, b2, b3⟩ := ih m1 (by rw [a4]; exact hon)
          (fun l hl => hsw l (by
            rw [a5] at hl
            simp only [hm, List.take_succ_cons, List.mem_cons]
            exact Or.inr hl))
        simp only [Run.andThen]
        exact ⟨by rw [b1, a1], by rw [b2, a2], by rw [b3, a3]⟩

/-- C5: calibration happens exactly on activation.  On an enabled tick of a device
that was off before (the previous tick was disabled, or the device has just
started up), `calibrate()` is run again until its first success, and the
trial of that tick, as well as the trial of every later tick for as long as
the switch stays on, compares against the threshold of that successful
calibration, whatever the threshold was before.  On an enabled tick of a
device that was on before, no calibration runs and the calibration is
unchanged.  `lastState` is `ON` after a tick exactly when that tick was
enabled, and `OFF` after start-up. -/
theorem C5_recalibration :
    (∀ (m : Machine) (sw : List Bool) (fails : List (Sample × Sample)) (b w : Sample)
        (rest : List Sample), m.lastState = OFF → m.switch = LOW :: sw →
        m.sensor = retrySamples fails ++ b :: w :: rest →
        (∀ p ∈ fails, thresholdOf p.1.value.val p.2.value.val < 100) →
        100 ≤ thresholdOf b.value.val w.value.val →
        loop m = ((trial (activated m sw fails b w rest)).andThen fun _ m => pace m)
          ∧ (activated m sw fails b w rest).log
              = m.log ++ (m.clock, .digitalRead .PIN_STATE false) :: retryLog m.clock fails
                  ++ calibrateLog (m.clock + retryTime fails) b w
          ∧ (activated m sw fails b w rest).threshold = thresholdOf b.value.val w.value.val
          ∧ (loop m).machine.threshold = thresholdOf b.value.val w.value.val
          ∧ (loop m).machine.lastState = ON
          ∧ ∀ n : Nat, (∀ l ∈ sw.take n, l = LOW) →
              (ticks (n + 1) m).machine.threshold = thresholdOf b.value.val w.value.val)
      ∧ (∀ (m : Machine) (sw : List Bool), m.lastState = ON → m.switch = LOW :: sw →
          loop m
              = ((trial { m with
                    switch := sw
                    log := m.log ++ [(m.clock, .digitalRead .PIN_STATE false)] }).andThen
                  fun _ m => pace m)
            ∧ (loop m).machine.blackValue = m.blackValue
            ∧ (loop m).machine.whiteValue = m.whiteValue
            ∧ (loop m).machine.threshold = m.threshold
            ∧ (loop m).machine.lastState = ON)
      ∧ (∀ m m' : Machine, loop m = .done () m' →
          (m'.lastState = ON ↔ m.switch.head? = some LOW))
      ∧ (∀ (sw : List Bool) (se : List Sample) (rng : List Nat),
          (setup (boot sw se rng)).lastState = OFF) := by
  refine ⟨?_, ?_, ?_, ?_⟩
  · intro m sw fails b w rest hoff hsw hs hfail hok
    have hloop := loop_enabled_off m sw fails b w rest hoff hsw hs hfail hok
    obtain ⟨⟨a1, a2, a3, a4, a5⟩, _⟩ := trial_pace_frame (activated m sw fails b w rest)
    rw [← hloop] at a1 a2 a3 a4 a5
    have hthr : (activated m sw fails b w rest).threshold
        = thresholdOf b.value.val w.value.val := rfl
    refine ⟨hloop, by simp [activated, calibrated], hthr, by rw [a3, hthr], by rw [a4]; rfl, ?_⟩
    intro n hn
    simp only [ticks]
    cases hr : loop m with
    | stuck m1 =>
      rw [hr] at a3
      simpa [Run.andThen, hthr] using a3
    | done u m1 =>
      rw [hr] at a3 a4 a5
      simp only [Run.machine] at a3 a4 a5
      obtain ⟨_, _, b3⟩ := ticks_enabled_frame n m1 (by rw [a4]; rfl)
        (by rw [a5]; exact hn)
      simp only [Run.andThen]
      rw [b3, a3, hthr]
  · intro m sw hon hsw
    have hloop := loop_enabled_on m sw hsw hon
    obtain ⟨⟨a1, a2, a3, a4, a5⟩, _⟩ := trial_pace_frame
      { m with switch := sw, log := m.log ++ [(m.clock, .digitalRead .PIN_STATE false)] }
    rw [← hloop] at a1 a2 a3 a4 a5
    exact ⟨hloop, a1, a2, a3, by rw [a4]; exact hon⟩
  · intro m m' hdone
    cases hm : m.switch with
    | nil => simp [loop, digitalRead, hm] at hdone
    | cons l sw =>
      cases l with
      | true =>
        rw [loop_disabled m sw hm] at hdone
        simp only [Run.done.injEq, true_and] at hdone
        rw [← hdone]
        simp [OFF, ON, LOW]
      | false =>
        rw [loop_enabled m sw hm] at hdone
        obtain ⟨_, m1, hact, hrest⟩ := andThen_done _ _ _ _ hdone
        have h1 := activate_done _ _ hact
        obtain ⟨⟨_, _, _, a4, _⟩, _⟩ := trial_pace_frame m1
        rw [hrest] at a4
        simp only [Run.machine] at a4
        simp [a4, h1, LOW]
  · intro sw se rng
    rfl

/-- Witness of `C5_recalibration`: a cold start whose first calibration attempt
fails and whose second succeeds with threshold 475, which also the third
enabled tick still uses. -/
theorem C5_recalibration_witness :
    coldStart.lastState = OFF
      ∧ (loop coldStart).machine.threshold = thresholdOf 500 450
      ∧ (loop coldStart).machine.lastState = ON
      ∧ (ticks (2 + 1) coldStart).machine.threshold = thresholdOf 500 450 :=
  ⟨rfl,
   (C5_recalibration.1 coldStart [LOW, LOW] [(⟨3, 80⟩, ⟨4, 60⟩)] ⟨3, 500⟩ ⟨4, 450⟩
      [⟨100, 500⟩, ⟨100, 470⟩, ⟨5, 480⟩, ⟨90, 470⟩, ⟨5, 480⟩]
      rfl rfl rfl (by decide) (by decide)).2.2.2.1,
   (C5_recalibration.1 coldStart [LOW, LOW] [(⟨3, 80⟩, ⟨4, 60⟩)] ⟨3, 500⟩ ⟨4, 450⟩
      [⟨100, 500⟩, ⟨100, 470⟩, ⟨5, 480⟩, ⟨90, 470⟩, ⟨5, 480⟩]
      rfl rfl rfl (by decide) (by decide)).2.2.2.2.1,
   (C5_recalibration.1 coldStart [LOW, LOW] [(⟨3, 80⟩, ⟨4, 60⟩)] ⟨3, 500⟩ ⟨4, 450⟩
      [⟨100, 500⟩, ⟨100, 470⟩, ⟨5, 480⟩, ⟨90, 470⟩, ⟨5, 480⟩]
      rfl rfl rfl (by decide) (by decide)).2.2.2.2.2 2 (by decide)⟩

/-! ## Two consecutive enabled ticks -/

end Yalmd
